import Mathlib

/-!
Verification of the row-level authorization rule engine of the `resolver`
package (rule compilation, rule selection, and query enforcement).

The Go code is embedded shallowly:

* `map[string]interface{}` documents become `Value` trees; a Go map is
  represented as an association list whose order stands for one iteration
  order of the map (Go map iteration order is unspecified; wherever a claim
  depends on that order the order is an explicit parameter of the model).
* a possibly-nil Go map becomes `Option Fragment`: `none` is the nil map
  (an explicit deny marker in rule position), `some []` is a non-nil empty map.
* fallible functions return `Except RErr` mirroring the `(value, err)`
  returns; a nil-pointer dereference, which panics at runtime in Go, is
  modelled by the distinguished outcome `RErr.nilQueryRules`.
* `CompileRawRules` is modelled from the point after `json.Unmarshal`
  succeeded: it receives the decoded configuration value (`none` standing
  for a JSON `null` document), since JSON byte-level decoding is outside
  the scope of this development.
-/

/-- A JSON-like document value (Go `interface{}` trees). -/
inductive Value where
  | null
  | str (s : String)
  | int (n : Int)
  | bool (b : Bool)
  | obj (fields : List (String × Value))
  | arr (elems : List Value)
deriving Repr

/-- A non-nil Go `map[string]interface{}`, as an association list. -/
abbrev Fragment := List (String × Value)

/-- Errors and panics of the engine. Constructors correspond to the Go error
messages: `nilQueryRules` models the nil-pointer dereference panic in
`findRulesToApply`; `denyState`, `denyGroup`, `denyUser`, `denyDefault` are the
"permission denied of ..." errors; the `merge...` constructors are the
`mergeUpdate` errors; `configError` carries the compilation error strings. -/
inductive RErr where
  | nilQueryRules
  | denyState (s : String)
  | denyGroup (g : String)
  | denyUser
  | denyDefault
  | mergeMixed
  | mergeOpArg (op : String)
  | mergeUnknownOp (op : String)
  | configError (msg : String)
deriving Repr, DecidableEq

/-- The rule query type enum (`RuleQueryInsert` .. `RuleQueryCount`). -/
inductive RuleQueryType where
  | insert
  | update
  | find
  | remove
  | count
deriving Repr, DecidableEq

/-- Association-list lookup, modelling Go's `v, ok = m[k]` (`none` = absent). -/
def assocFind {α : Type} (l : List (String × α)) (key : String) : Option α :=
  match l with
  | [] => none
  | (k, v) :: rest => if k = key then some v else assocFind rest key

/-- Association-list store, modelling Go's `m[k] = v` (overwrite in place,
append when the key is new). -/
def assocSet {α : Type} (l : List (String × α)) (key : String) (v : α) :
    List (String × α) :=
  match l with
  | [] => [(key, v)]
  | (k, w) :: rest => if k = key then (k, v) :: rest else (k, w) :: assocSet rest key v

/-- QueryRules: rules for one query type. Map values of type `Option Fragment`
keep Go's nil/non-nil map distinction (`none` = explicit deny). `defaultRules`
is the `map[string]interface{}` field itself, `none` standing for a nil map. -/
structure QueryRules where
  groupRules : List (String × Option Fragment)
  userRules : List (String × Option Fragment)
  userStateRules : List (String × Option Fragment)
  defaultRules : Option Fragment
deriving Repr

/-- TableRules: rules for a single table. The `rules` map holds possibly-nil
pointers to QueryRules; `updateRules` is a possibly-nil pointer. -/
structure TableRules where
  rules : List (RuleQueryType × Option QueryRules)
  updateRules : Option QueryRules
deriving Repr

/-- Lookup in the per-table `rules` map keyed by query type. -/
def qtFind (l : List (RuleQueryType × Option QueryRules)) (qt : RuleQueryType) :
    Option (Option QueryRules) :=
  match l with
  | [] => none
  | (k, v) :: rest => if k = qt then some v else qtFind rest qt

/-- The compiled Rules object. -/
structure Rules where
  groups : List String
  userGroups : List (String × List String)
  rules : List (String × Option TableRules)
deriving Repr

/-- One flat-table entry of `mergeUpdate` (`updateMergeItem`). -/
structure UpdateMergeItem where
  op : String
  argument : Value
deriving Repr

/-- The flat merge table of `mergeUpdate`: field name to (operator, argument). -/
abbrev MergeTbl := List (String × UpdateMergeItem)

/-- Models `strings.HasPrefix(k, "$")`. -/
def dollarKey (k : String) : Bool :=
  match k.data with
  | '$' :: _ => true
  | _ => false

/-- The six recognized dollar operators of `mergeUpdate`. -/
def knownUpdateOp (k : String) : Bool :=
  k = "$currentDate" || k = "$inc" || k = "$max" || k = "$min" || k = "$mul" || k = "$set"

/-- Go `result[field] = item`: overwrite in place or append. -/
def tblInsert (tbl : MergeTbl) (field : String) (item : UpdateMergeItem) : MergeTbl :=
  match tbl with
  | [] => [(field, item)]
  | (f, it) :: rest =>
    if f = field then (f, item) :: rest else (f, it) :: tblInsert rest field item

/-- The inner loop `for field, argument := range ov` of a dollar operator. -/
def tblInsertMany (tbl : MergeTbl) (op : String) : List (String × Value) → MergeTbl
  | [] => tbl
  | (f, a) :: rest => tblInsertMany (tblInsert tbl f ⟨op, a⟩) op rest

/-- The key loop of `mergeUpdate` over one fragment, carrying the
`useDollarOp` / `useNormalSet` flags. -/
def mergeFragKeys (tbl : MergeTbl) (useDollarOp useNormalSet : Bool) :
    List (String × Value) → Except RErr MergeTbl
  | [] => .ok tbl
  | (k, v) :: rest =>
    if dollarKey k then
      if useNormalSet then .error .mergeMixed
      else
        if knownUpdateOp k then
          match v with
          | Value.obj ov => mergeFragKeys (tblInsertMany tbl k ov) true useNormalSet rest
          | _ => .error (.mergeOpArg k)
        else if k = "$comment" then
          mergeFragKeys tbl true useNormalSet rest
        else .error (.mergeUnknownOp k)
    else
      if useDollarOp then .error .mergeMixed
      else mergeFragKeys (tblInsert tbl k ⟨"$set", v⟩) useDollarOp true rest

/-- Processing of one fragment of `mergeUpdate` (`for _, d := range q` body);
ranging over a nil map performs no iterations. -/
def mergeOneFrag (tbl : MergeTbl) : Option Fragment → Except RErr MergeTbl
  | none => .ok tbl
  | some fields => mergeFragKeys tbl false false fields

/-- The fragment loop of `mergeUpdate`, building the flat table. -/
def mergeTableList (tbl : MergeTbl) : List (Option Fragment) → Except RErr MergeTbl
  | [] => .ok tbl
  | d :: rest =>
    match mergeOneFrag tbl d with
    | .error e => .error e
    | .ok tbl2 => mergeTableList tbl2 rest

/-- Go `o[item.op]` accumulation: fetch or create the operator's object and add
the field to it. -/
def addToOp (o : Fragment) (op field : String) (arg : Value) : Fragment :=
  match o with
  | [] => [(op, Value.obj [(field, arg)])]
  | (k, v) :: rest =>
    if k = op then
      match v with
      | Value.obj fields => (k, Value.obj (fields ++ [(field, arg)])) :: rest
      | _ => (k, v) :: rest
    else (k, v) :: addToOp rest op field arg

/-- The final-assembly loop of `mergeUpdate`: group the flat table by operator. -/
def assembleFold (o : Fragment) : MergeTbl → Fragment
  | [] => o
  | (field, item) :: rest => assembleFold (addToOp o item.op field item.argument) rest

/-- Convert the flat merge table to the resulting update document. -/
def assembleUpdate (tbl : MergeTbl) : Fragment := assembleFold [] tbl

/-- `mergeUpdate(q...)`: `none` is the nil map returned when `len(q) == 0`. -/
def mergeUpdateList (q : List (Option Fragment)) : Except RErr (Option Fragment) :=
  match q with
  | [] => .ok none
  | _ =>
    match mergeTableList [] q with
    | .error e => .error e
    | .ok tbl => .ok (some (assembleUpdate tbl))

/-- The accumulation loop of `mergeInsert`. -/
def mergeInsertFold (o : Fragment) : List (Option Fragment) → Fragment
  | [] => o
  | none :: rest => mergeInsertFold o rest
  | some fields :: rest =>
    mergeInsertFold (fields.foldl (fun acc kv => assocSet acc kv.1 kv.2) o) rest

/-- `mergeInsert(q...)`: shallow merge, later fragments overwriting earlier. -/
def mergeInsert (q : List (Option Fragment)) : Option Fragment :=
  match q with
  | [] => none
  | _ => some (mergeInsertFold [] q)

/-- Lookup in the variable bag. -/
def lookupVar (vars : List (String × Value)) (k : String) : Option Value :=
  match vars with
  | [] => none
  | (k2, v) :: rest => if k2 = k then some v else lookupVar rest k

mutual
/-- Modelled from the spec: `InjectMagicVars` is referenced by the enforcement
functions but its definition is not among the sources. Per the spec it walks a
nested document, replacing every string leaf that carries the magic-variable
token (a reserved leading `@@` followed by a name) with the corresponding value
from the variable bag; unresolved tokens pass through unchanged; maps and
sequences are traversed recursively; all other leaves are returned as they are. -/
def InjectMagicVars (doc : Value) (vars : List (String × Value)) : Value :=
  match doc with
  | .str s =>
      match s.data with
      | '@' :: '@' :: nm =>
          match lookupVar vars (String.mk nm) with
          | some v => v
          | none => .str s
      | _ => .str s
  | .obj fields => .obj (injectFields fields vars)
  | .arr elems => .arr (injectElems elems vars)
  | v => v
termination_by structural doc

/-- Recursive walk of `InjectMagicVars` over the entries of a map. -/
def injectFields (fields : List (String × Value)) (vars : List (String × Value)) :
    List (String × Value) :=
  match fields with
  | [] => []
  | (k, v) :: rest => (k, InjectMagicVars v vars) :: injectFields rest vars
termination_by structural fields

/-- Recursive walk of `InjectMagicVars` over the elements of a sequence. -/
def injectElems (elems : List Value) (vars : List (String × Value)) : List Value :=
  match elems with
  | [] => []
  | v :: rest => InjectMagicVars v vars :: injectElems rest vars
termination_by structural elems
end

/-- `InjectMagicVars` applied to a possibly-nil rule fragment (a nil map stays
nil). -/
def injectFragment (fr : Option Fragment) (vars : List (String × Value)) :
    Option Fragment :=
  match fr with
  | none => none
  | some fields => some (injectFields fields vars)

/-- A possibly-nil map as a document value (a nil map marshals to JSON null). -/
def fragValue : Option Fragment → Value
  | none => Value.null
  | some fields => Value.obj fields

/-- Raw per-table enforcement sections of the configuration (`tableEnforces`);
`none` is a nil map for an absent section. The two update sub-sections of
`updateQueryEnforces` appear as `updateFilter` and `updateUpdate`. -/
structure TableEnforces where
  find : Option (List (String × Option Fragment))
  count : Option (List (String × Option Fragment))
  remove : Option (List (String × Option Fragment))
  insert : Option (List (String × Option Fragment))
  updateFilter : Option (List (String × Option Fragment))
  updateUpdate : Option (List (String × Option Fragment))
deriving Repr

/-- The decoded raw rules configuration (`RulesConfig`). -/
structure RulesConfig where
  groups : List (String × List String)
  rules : List (String × TableEnforces)
deriving Repr

/-- Models `strings.ToLower` as character-wise lower-casing (the ASCII folding
is what the state names exercise). -/
def toLowerStr (s : String) : String := String.mk (s.data.map Char.toLower)

/-- The five defined user states. -/
def knownState (s : String) : Bool :=
  s = "anonymous" || s = "logged_in" || s = "sign_up" || s = "pre_register" || s = "disabled"

/-- The fresh `QueryRules` value allocated by `compileQueryEnforces`: all maps
empty and `defaultRules` a non-nil empty map. -/
def qrInit : QueryRules :=
  { groupRules := [], userRules := [], userStateRules := [], defaultRules := some [] }

/-- The four subject-key shapes distinguished by `compileQueryEnforces`, plus
the invalid shape. -/
inductive SubjectKind where
  | group (nm : String)
  | user (nm : String)
  | state (nm : String)
  | deflt
  | invalid
deriving Repr, DecidableEq

/-- The subject-key dispatch of `compileQueryEnforces`: the `g:` / `u:` / `s:`
markers checked in source order (they are mutually exclusive), then the literal
`default`, anything else invalid. -/
def classifySubject (subject : String) : SubjectKind :=
  match subject.data with
  | 'g' :: ':' :: nm => .group (String.mk nm)
  | 'u' :: ':' :: nm => .user (String.mk nm)
  | 's' :: ':' :: nm => .state (String.mk nm)
  | _ => if subject = "default" then .deflt else .invalid

/-- The subject loop of `compileQueryEnforces`: dispatch each subject key by
its `g:` / `u:` / `s:` marker or the literal `default`. -/
def compileSubjects (cfg : RulesConfig) (qr : QueryRules) :
    List (String × Option Fragment) → Except RErr QueryRules
  | [] => .ok qr
  | (subject, obj) :: rest =>
    match classifySubject subject with
    | .group groupName =>
      if groupName = "" then .error (.configError "invalid empty group name")
      else if (assocFind cfg.groups groupName).isNone then
        .error (.configError (groupName ++ ": unknown group"))
      else
        compileSubjects cfg { qr with groupRules := assocSet qr.groupRules groupName obj } rest
    | .user userName =>
      if userName = "" then .error (.configError "invalid empty user name")
      else
        compileSubjects cfg { qr with userRules := assocSet qr.userRules userName obj } rest
    | .state rawState =>
      let userState := toLowerStr rawState
      if knownState userState then
        compileSubjects cfg
          { qr with userStateRules := assocSet qr.userStateRules userState obj } rest
      else .error (.configError ("invalid user state " ++ userState))
    | .deflt => compileSubjects cfg { qr with defaultRules := obj } rest
    | .invalid => .error (.configError (subject ++ ": invalid enforce type"))

/-- `compileQueryEnforces`: ranging over a nil map performs no iterations. -/
def compileQueryEnforces (cfg : RulesConfig)
    (enforces : Option (List (String × Option Fragment))) : Except RErr QueryRules :=
  compileSubjects cfg qrInit (enforces.getD [])

/-- Trial-merge each fragment of one subject category of `validateUpdateRules`. -/
def trialMergeAll : List (Option Fragment) → Except RErr Unit
  | [] => .ok ()
  | fr :: rest =>
    match mergeUpdateList [fr] with
    | .error e => .error e
    | .ok _ => trialMergeAll rest

/-- `validateUpdateRules`: trial-merge every fragment of the compiled update
rules (state, group, user categories, then the default rule). -/
def validateUpdateRules (rules : Option QueryRules) : Except RErr Unit :=
  match rules with
  | none => .ok ()
  | some qr =>
    match trialMergeAll (qr.userStateRules.map Prod.snd) with
    | .error e => .error e
    | .ok _ =>
      match trialMergeAll (qr.groupRules.map Prod.snd) with
      | .error e => .error e
      | .ok _ =>
        match trialMergeAll (qr.userRules.map Prod.snd) with
        | .error e => .error e
        | .ok _ =>
          match mergeUpdateList [qr.defaultRules] with
          | .error e => .error e
          | .ok _ => .ok ()

/-- Go `r.userGroups[userName] = append(r.userGroups[userName], groupName)`. -/
def appendUserGroup (ug : List (String × List String)) (u g : String) :
    List (String × List String) :=
  match assocFind ug u with
  | none => ug ++ [(u, [g])]
  | some gs => assocSet ug u (gs ++ [g])

/-- The inner user loop of the groups pass of `CompileRawRules`. -/
def addGroupUsers (st : List String × List (String × List String)) (g : String) :
    List String → List String × List (String × List String)
  | [] => st
  | u :: us => addGroupUsers (st.1 ++ [g], appendUserGroup st.2 u g) g us

/-- The groups pass of `CompileRawRules`: the list order of `groups` stands for
the iteration order of the Go `cfg.Groups` map chosen by the runtime. -/
def buildGroups (st : List String × List (String × List String)) :
    List (String × List String) → List String × List (String × List String)
  | [] => st
  | (g, users) :: rest => buildGroups (addGroupUsers st g users) rest

/-- The per-table pass of `CompileRawRules`: compile the six enforcement
sections in source order, then validate the update rules. -/
def compileTables (cfg : RulesConfig) :
    List (String × TableEnforces) → Except RErr (List (String × Option TableRules))
  | [] => .ok []
  | (tname, te) :: rest =>
    match compileQueryEnforces cfg te.find with
    | .error e => .error e
    | .ok fnd =>
      match compileQueryEnforces cfg te.count with
      | .error e => .error e
      | .ok cnt =>
        match compileQueryEnforces cfg te.remove with
        | .error e => .error e
        | .ok rmv =>
          match compileQueryEnforces cfg te.insert with
          | .error e => .error e
          | .ok ins =>
            match compileQueryEnforces cfg te.updateFilter with
            | .error e => .error e
            | .ok updF =>
              match compileQueryEnforces cfg te.updateUpdate with
              | .error e => .error e
              | .ok updU =>
                match validateUpdateRules (some updU) with
                | .error e => .error e
                | .ok _ =>
                  match compileTables cfg rest with
                  | .error e => .error e
                  | .ok rest2 =>
                    .ok ((tname, some
                      { rules := [(RuleQueryType.find, some fnd),
                                  (RuleQueryType.count, some cnt),
                                  (RuleQueryType.remove, some rmv),
                                  (RuleQueryType.insert, some ins),
                                  (RuleQueryType.update, some updF)],
                        updateRules := some updU }) :: rest2)

/-- Models the `validator.New().Struct` tags on `RulesConfig`: group names,
group member names and table names must be non-empty, and each group's member
list must be non-empty. -/
def validateStruct (cfg : RulesConfig) : Bool :=
  cfg.groups.all (fun gv => !(gv.1 = "") && !gv.2.isEmpty && gv.2.all (fun u => !(u = ""))) &&
  cfg.rules.all (fun tv => !(tv.1 = ""))

/-- `CompileRawRules` from the point after `json.Unmarshal` succeeded: a `none`
configuration (JSON null) yields a nil Rules object with no error; otherwise
validate, build the group index, and compile every table. -/
def CompileRawRules (cfg : Option RulesConfig) : Except RErr (Option Rules) :=
  match cfg with
  | none => .ok none
  | some c =>
    if validateStruct c then
      match compileTables c c.rules with
      | .error e => .error e
      | .ok tbls =>
        .ok (some { groups := (buildGroups ([], []) c.groups).1,
                    userGroups := (buildGroups ([], []) c.groups).2,
                    rules := tbls })
    else .error (.configError "validation failed")

/-- The successfully compiled Rules object of a configuration (the error and
nil cases, unused by the theorems, collapse to the empty Rules object). -/
def rulesOf (c : RulesConfig) : Rules :=
  match CompileRawRules (some c) with
  | .ok (some r) => r
  | _ => { groups := [], userGroups := [], rules := [] }

/-- `findUserRules`: resolve the QueryRules of `(table, qt)`, nil when the
table or the query type has no entry (open privilege). -/
def findUserRules (r : Rules) (table : String) (qt : RuleQueryType) : Option QueryRules :=
  match assocFind r.rules table with
  | none => none
  | some none => none
  | some (some tableRules) =>
    match qtFind tableRules.rules qt with
    | none => none
    | some none => none
    | some (some queryRules) => some queryRules

/-- Go `r.userGroups[uid]` (a nil slice when absent). -/
def userGroupsOf (r : Rules) (uid : String) : List String :=
  (assocFind r.userGroups uid).getD []

/-- The state-rule step of `findRulesToApply`: an absent key contributes the
nil `stateRule` zero value, a present-but-nil entry denies. -/
def stateRuleStep (qr : QueryRules) (userState : String) :
    Except RErr (Option Fragment) :=
  match assocFind qr.userStateRules userState with
  | some none => .error (.denyState userState)
  | lk => .ok (lk.getD none)

/-- The user-rule step of `findRulesToApply`, same shape as the state step. -/
def userRuleStep (qr : QueryRules) (uid : String) : Except RErr (Option Fragment) :=
  match assocFind qr.userRules uid with
  | some none => .error .denyUser
  | lk => .ok (lk.getD none)

/-- The group loop of `findRulesToApply`: skip absent groups, deny on a
present-but-nil entry, append present fragments in group order. -/
def collectGroupRules (qr : QueryRules) : List String → Except RErr (List (Option Fragment))
  | [] => .ok []
  | g :: gs =>
    match assocFind qr.groupRules g with
    | none => collectGroupRules qr gs
    | some none => .error (.denyGroup g)
    | some (some fr) =>
      match collectGroupRules qr gs with
      | .error e => .error e
      | .ok rest => .ok (some fr :: rest)

/-- `findRulesToApply`: dereferencing a nil QueryRules pointer panics in Go
(`RErr.nilQueryRules`); otherwise the state rule and the user rule are appended
unconditionally (the nil zero value stands in when the key is absent), group
fragments are appended in order, and the default rule is consulted only when
the accumulated list is empty. -/
def findRulesToApply (r : Rules) (qrOpt : Option QueryRules) (uid userState : String) :
    Except RErr (List (Option Fragment)) :=
  match qrOpt with
  | none => .error .nilQueryRules
  | some qr =>
    match stateRuleStep qr userState with
    | .error e => .error e
    | .ok stateRule =>
      match collectGroupRules qr (userGroupsOf r uid) with
      | .error e => .error e
      | .ok groupFrs =>
        match userRuleStep qr uid with
        | .error e => .error e
        | .ok userRule =>
          let resultRules := (stateRule :: groupFrs) ++ [userRule]
          if resultRules.length = 0 then
            match qr.defaultRules with
            | none => .error .denyDefault
            | some df => .ok (resultRules ++ [some df])
          else .ok resultRules

/-- `EnforceRulesOnFilter`: note that the source resolves the rules with the
hard-coded update query type, not with the `qt` argument, and that the empty
selection test mirrors Go's `resultRules == nil`. -/
def EnforceRulesOnFilter (r : Rules) (f : Fragment) (table uid userState : String)
    (vars : List (String × Value)) (qt : RuleQueryType) : Except RErr Fragment :=
  match findRulesToApply r (findUserRules r table RuleQueryType.update) uid userState with
  | .error e => .error e
  | .ok resultRules =>
    match resultRules with
    | [] => .ok f
    | _ =>
      .ok [("$and",
        Value.arr ((resultRules.map (fun ro => fragValue (injectFragment ro vars)))
          ++ [Value.obj f]))]

/-- `EnforceRulesOnUpdate`: return the caller's document unchanged when the
table or its update rules are absent; otherwise merge the selected fragments,
inject variables, and merge the caller's document with the injected result
(the final merge of two fragments always yields a non-nil map). -/
def EnforceRulesOnUpdate (r : Rules) (d : Fragment) (table uid userState : String)
    (vars : List (String × Value)) : Except RErr Fragment :=
  match assocFind r.rules table with
  | none => .ok d
  | some none => .ok d
  | some (some tableRules) =>
    match tableRules.updateRules with
    | none => .ok d
    | some _ =>
      match findRulesToApply r tableRules.updateRules uid userState with
      | .error e => .error e
      | .ok resultRules =>
        match mergeUpdateList resultRules with
        | .error e => .error e
        | .ok u1 =>
          match mergeUpdateList [some d, injectFragment u1 vars] with
          | .error e => .error e
          | .ok u2 => .ok (u2.getD [])

/-- `EnforceRulesOnInsert`: select the insert rules, shallow-merge them, inject
variables and shallow-merge onto the caller's document (the final merge of two
fragments always yields a non-nil map). -/
def EnforceRulesOnInsert (r : Rules) (d : Fragment) (table uid userState : String)
    (vars : List (String × Value)) : Except RErr Fragment :=
  match findRulesToApply r (findUserRules r table RuleQueryType.insert) uid userState with
  | .error e => .error e
  | .ok resultRules =>
    match resultRules with
    | [] => .ok d
    | _ => .ok ((mergeInsert [some d, injectFragment (mergeInsert resultRules) vars]).getD [])

/-! Concrete configurations used by the theorems. -/

/-- A table section with every enforcement sub-map absent (nil). -/
def teEmpty : TableEnforces := ⟨none, none, none, none, none, none⟩

/-- Scenario S1 configuration: group `admins` holding `u1`, and a find rule for
`table1` keyed `g:admins` with fragment `tenant = T`. -/
def cfgS1 : RulesConfig :=
  { groups := [("admins", ["u1"])],
    rules := [("table1",
      { teEmpty with find := some [("g:admins", some [("tenant", Value.str "T")])] })] }

/-- A configuration with no groups and no tables. -/
def cfgEmpty : RulesConfig := { groups := [], rules := [] }

/-- The compiled QueryRules of a single enforcement section over the empty
configuration (collapsing the impossible error case to `qrInit`). -/
def qrOf (enf : List (String × Option Fragment)) : QueryRules :=
  match compileQueryEnforces cfgEmpty (some enf) with
  | .ok qr => qr
  | .error _ => qrInit

/-- QueryRules compiled from a section whose only subject is an explicit-null
`default` (an explicit default deny). -/
def qrNullDefault : QueryRules := qrOf [("default", none)]

/-- QueryRules compiled from a section whose only subject is a present
`default` allow fragment. -/
def qrPubDefault : QueryRules := qrOf [("default", some [("pub", Value.bool true)])]

/-- The compiled Rules object of the empty configuration. -/
def rEmpty : Rules := rulesOf cfgEmpty

/-- Two iteration orders of one and the same `Groups` map: `u1` belongs to the
groups `a` and `b`. -/
def cfgGroupsAB : RulesConfig := { groups := [("a", ["u1"]), ("b", ["u1"])], rules := [] }

/-- The same map as `cfgGroupsAB`, enumerated in the other order. -/
def cfgGroupsBA : RulesConfig := { groups := [("b", ["u1"]), ("a", ["u1"])], rules := [] }

/-- Claim C1: the rule fragments conjoined into the result of
`EnforceRulesOnFilter` are NOT those compiled for the pair `(table, kind)`:
the source resolves the rules with the hard-coded update query type and
appends the nil state and user entries unconditionally, so the scenario-S1
call returns the caller's filter conjoined with two null fragments instead of
the `tenant = T` find fragment. This theorem evaluates the code at the claim's
own input and shows the output differs from the claimed one. -/
theorem c1_filter_fragments_not_from_kind :
    EnforceRulesOnFilter (rulesOf cfgS1) [("name", Value.str "x")] "table1" "u1"
        "logged_in" [] RuleQueryType.find
      = .ok [("$and", Value.arr [Value.null, Value.null, Value.obj [("name", Value.str "x")]])]
    ∧ ([("$and", Value.arr [Value.null, Value.null, Value.obj [("name", Value.str "x")]])]
        : Fragment)
      ≠ [("$and", Value.arr [Value.obj [("tenant", Value.str "T")],
                             Value.obj [("name", Value.str "x")]])] :=
  ⟨rfl, by simp⟩

/-- Claim C2: with no rules compiled for the given table, enforcement does NOT
return the caller's query unchanged on the filter and insert paths: the absent
QueryRules pointer is dereferenced inside `findRulesToApply`, which panics at
runtime (modelled by `RErr.nilQueryRules`); only the update path returns the
caller's document unchanged. -/
theorem c2_absent_query_rules_dereferenced :
    EnforceRulesOnFilter (rulesOf cfgS1) [("name", Value.str "x")] "nosuch" "u1"
        "logged_in" [] RuleQueryType.find = .error RErr.nilQueryRules
    ∧ EnforceRulesOnInsert (rulesOf cfgS1) [("a", Value.int 1)] "nosuch" "u1"
        "logged_in" [] = .error RErr.nilQueryRules
    ∧ EnforceRulesOnUpdate (rulesOf cfgS1) [("a", Value.int 1)] "nosuch" "u1"
        "logged_in" [] = .ok [("a", Value.int 1)] :=
  ⟨rfl, rfl, rfl⟩

/-- Claim C3: when no subject tier contributes, the selector does NOT consult
the default rule: the unconditionally appended nil state and user entries make
the emptiness test false, so an explicit-null default raises no default-deny
error and a present default fragment is never appended — the selector returns
the two nil entries in both cases. -/
theorem c3_default_tier_unreachable :
    findRulesToApply rEmpty (some qrNullDefault) "u9" "logged_in" = .ok [none, none]
    ∧ findRulesToApply rEmpty (some qrPubDefault) "u9" "logged_in" = .ok [none, none] :=
  ⟨rfl, rfl⟩

/-- Claim C4: with compiled rules present for the table but no subject tier
contributing and no default rule, the returned filter is NOT the caller's
filter unchanged: scenario S2 (uid `u2`) yields the caller's filter wrapped in
a conjunction with two null conjuncts. -/
theorem c4_empty_selection_not_unchanged :
    EnforceRulesOnFilter (rulesOf cfgS1) [("name", Value.str "x")] "table1" "u2"
        "logged_in" [] RuleQueryType.find
      = .ok [("$and", Value.arr [Value.null, Value.null, Value.obj [("name", Value.str "x")]])]
    ∧ ([("$and", Value.arr [Value.null, Value.null, Value.obj [("name", Value.str "x")]])]
        : Fragment)
      ≠ [("name", Value.str "x")] :=
  ⟨rfl, by simp⟩

/-- Claim C9: compilation is NOT deterministic in its group ordering: the
source iterates the `Groups` map in Go's unspecified map order, so two
compilations of the same configuration (here: the same map enumerated in its
two orders) produce `userGroups` lists for `u1` that enumerate the groups in
different orders. -/
theorem c9_group_order_not_deterministic :
    cfgGroupsAB.groups.Perm cfgGroupsBA.groups
    ∧ cfgGroupsAB.rules = cfgGroupsBA.rules
    ∧ assocFind (rulesOf cfgGroupsAB).userGroups "u1" = some ["a", "b"]
    ∧ assocFind (rulesOf cfgGroupsBA).userGroups "u1" = some ["b", "a"]
    ∧ (["a", "b"] : List String) ≠ ["b", "a"] :=
  ⟨List.Perm.swap _ _ _, rfl, rfl, rfl, by simp⟩

/-! Lemmas on the group loop of the rule selector. -/

/-- When every group before `g` carries an allow fragment and `g` carries an
explicit deny, the group loop fails with the deny for `g`. -/
theorem collectGroupRules_append_deny (qr : QueryRules) (gs1 gs2 : List String) (g : String)
    (h1 : ∀ g2 ∈ gs1, ∃ fr : Fragment, assocFind qr.groupRules g2 = some (some fr))
    (hg : assocFind qr.groupRules g = some none) :
    collectGroupRules qr (gs1 ++ g :: gs2) = .error (.denyGroup g) := by
  induction gs1 with
  | nil => simp [collectGroupRules, hg]
  | cons a as ih =>
    obtain ⟨fr, hfr⟩ := h1 a (by simp)
    have ih2 := ih (fun g2 hg2 => h1 g2 (by simp [hg2]))
    simp [collectGroupRules, hfr, ih2]

/-- When no group carries an explicit deny, the group loop succeeds. -/
theorem collectGroupRules_no_deny (qr : QueryRules) (gs : List String)
    (h : ∀ g ∈ gs, assocFind qr.groupRules g ≠ some none) :
    ∃ l, collectGroupRules qr gs = .ok l := by
  induction gs with
  | nil => exact ⟨[], rfl⟩
  | cons a as ih =>
    obtain ⟨l, hl⟩ := ih (fun g hg => h g (by simp [hg]))
    cases hfind : assocFind qr.groupRules a with
    | none => exact ⟨l, by simp [collectGroupRules, hfind, hl]⟩
    | some o =>
      cases o with
      | none => exact absurd hfind (h a (by simp))
      | some fr => exact ⟨some fr :: l, by simp [collectGroupRules, hfind, hl]⟩

/-- Claim C5: an explicit deny (a present-but-nil fragment) at the state,
group, or user tier makes the selector fail with that tier's deny error, even
when an earlier tier has already contributed an allow fragment; no fragment
list is returned. -/
theorem c5_explicit_deny_short_circuits (r : Rules) (qr : QueryRules)
    (uid userState : String) (gs1 gs2 : List String) (g : String) (sfr : Fragment) :
    (assocFind qr.userStateRules userState = some none →
      findRulesToApply r (some qr) uid userState = .error (.denyState userState))
    ∧ (assocFind qr.userStateRules userState = some (some sfr) →
       userGroupsOf r uid = gs1 ++ g :: gs2 →
       (∀ g2 ∈ gs1, ∃ fr : Fragment, assocFind qr.groupRules g2 = some (some fr)) →
       assocFind qr.groupRules g = some none →
       findRulesToApply r (some qr) uid userState = .error (.denyGroup g))
    ∧ (assocFind qr.userStateRules userState = some (some sfr) →
       (∀ g2 ∈ userGroupsOf r uid, assocFind qr.groupRules g2 ≠ some none) →
       assocFind qr.userRules uid = some none →
       findRulesToApply r (some qr) uid userState = .error RErr.denyUser) := by
  refine ⟨?_, ?_, ?_⟩
  · intro h
    simp [findRulesToApply, stateRuleStep, h]
  · intro hs hg h1 hdeny
    have hc := collectGroupRules_append_deny qr gs1 gs2 g h1 hdeny
    simp [findRulesToApply, stateRuleStep, hs, hg, hc]
  · intro hs hnd hu
    obtain ⟨l, hl⟩ := collectGroupRules_no_deny qr (userGroupsOf r uid) hnd
    simp [findRulesToApply, stateRuleStep, userRuleStep, hs, hl, hu]

/-- Deny test rules: `u1` is in group `admins`, whose entry is an explicit
deny, while the `logged_in` state entry is an allow fragment. -/
def qrC5 : QueryRules :=
  { groupRules := [("admins", none)], userRules := [],
    userStateRules := [("logged_in", some [("s", Value.int 1)])], defaultRules := some [] }

/-- Rules object carrying the membership of `u1` in `admins`. -/
def rC5 : Rules := { groups := ["admins"], userGroups := [("u1", ["admins"])], rules := [] }

/-- Witness for C5: the group-tier deny fires for `u1` although the state tier
already contributed an allow fragment. -/
theorem c5_witness :
    findRulesToApply rC5 (some qrC5) "u1" "logged_in" = .error (RErr.denyGroup "admins") :=
  (c5_explicit_deny_short_circuits rC5 qrC5 "u1" "logged_in" [] [] "admins"
      [("s", Value.int 1)]).2.1 rfl rfl (by simp) rfl

/-- Claim C8: whenever `EnforceRulesOnFilter` succeeds, the result is either
the caller's filter itself or a single-key conjunction document whose `$and`
list ends with the caller's original filter, verbatim, after all injected rule
fragments. -/
theorem c8_filter_appended_last (r : Rules) (f : Fragment) (table uid userState : String)
    (vars : List (String × Value)) (qt : RuleQueryType) (out : Fragment)
    (h : EnforceRulesOnFilter r f table uid userState vars qt = .ok out) :
    out = f ∨ ∃ l : List Value, out = [("$and", Value.arr (l ++ [Value.obj f]))] := by
  unfold EnforceRulesOnFilter at h
  cases hfr : findRulesToApply r (findUserRules r table RuleQueryType.update) uid userState with
  | error e => rw [hfr] at h; cases h
  | ok rs =>
    rw [hfr] at h
    cases rs with
    | nil =>
      left
      simpa using h.symm
    | cons a as =>
      right
      refine ⟨(a :: as).map (fun ro => fragValue (injectFragment ro vars)), ?_⟩
      simpa using h.symm

/-! Machinery for the last-writer-wins analysis of `mergeUpdate`. -/

/-- The last element of `es`, or the fallback `d` when `es` is empty. -/
def lastOr (es : List UpdateMergeItem) (d : Option UpdateMergeItem) : Option UpdateMergeItem :=
  match es with
  | [] => d
  | it :: rest => lastOr rest (some it)

/-- `lastOr` over an append chains through the fallback. -/
theorem lastOr_append (l1 l2 : List UpdateMergeItem) (d : Option UpdateMergeItem) :
    lastOr (l1 ++ l2) d = lastOr l2 (lastOr l1 d) := by
  induction l1 generalizing d with
  | nil => rfl
  | cons a as ih => simp [lastOr, ih]

/-- The (operator, argument) entries a known dollar operator's object
contributes for field `x`, in iteration order. -/
def ovEntriesFor (op x : String) : List (String × Value) → List UpdateMergeItem
  | [] => []
  | (f, a) :: rest => (if f = x then [⟨op, a⟩] else []) ++ ovEntriesFor op x rest

/-- The (operator, argument) entries one update fragment carries for field
`x`, in processing order: a bare key `x` contributes its value under `$set`, a
known dollar operator contributes the entries of its object for `x`. -/
def fragEntriesFor (x : String) : List (String × Value) → List UpdateMergeItem
  | [] => []
  | (k, v) :: rest =>
    (if dollarKey k then
      (if knownUpdateOp k then
        (match v with
         | Value.obj ov => ovEntriesFor k x ov
         | _ => [])
       else [])
     else (if k = x then [⟨"$set", v⟩] else [])) ++ fragEntriesFor x rest

/-- The entries a fragment list carries for field `x` (nil fragments carry
none). -/
def fragsEntriesFor (x : String) : List (Option Fragment) → List UpdateMergeItem
  | [] => []
  | none :: rest => fragsEntriesFor x rest
  | some fields :: rest => fragEntriesFor x fields ++ fragsEntriesFor x rest

/-- `fragsEntriesFor` distributes over append. -/
theorem fragsEntriesFor_append (x : String) (l1 l2 : List (Option Fragment)) :
    fragsEntriesFor x (l1 ++ l2) = fragsEntriesFor x l1 ++ fragsEntriesFor x l2 := by
  induction l1 with
  | nil => rfl
  | cons d rest ih =>
    cases d with
    | none => simp [fragsEntriesFor, ih]
    | some fields => simp [fragsEntriesFor, ih]

/-- Lookup after a single table store. -/
theorem assocFind_tblInsert (tbl : MergeTbl) (f x : String) (it : UpdateMergeItem) :
    assocFind (tblInsert tbl f it) x = if f = x then some it else assocFind tbl x := by
  induction tbl with
  | nil => simp [tblInsert, assocFind]
  | cons a as ih =>
    obtain ⟨k, w⟩ := a
    by_cases hkf : k = f
    · subst hkf
      by_cases hkx : k = x <;> simp [tblInsert, assocFind, hkx]
    · by_cases hkx : k = x
      · subst hkx
        simp [tblInsert, assocFind, hkf, Ne.symm hkf]
      · simp [tblInsert, assocFind, hkf, hkx, ih]

/-- Lookup after storing a dollar operator's whole object: the last entry for
`x` wins, and fields other than `x` leave the lookup unchanged. -/
theorem assocFind_tblInsertMany (ov : List (String × Value)) (tbl : MergeTbl) (op x : String) :
    assocFind (tblInsertMany tbl op ov) x = lastOr (ovEntriesFor op x ov) (assocFind tbl x) := by
  induction ov generalizing tbl with
  | nil => rfl
  | cons fa rest ih =>
    obtain ⟨f, a⟩ := fa
    by_cases hfx : f = x <;>
      simp [tblInsertMany, ovEntriesFor, hfx, ih, assocFind_tblInsert, lastOr]

/-- Lookup after processing one fragment: the fragment's last entry for `x`
wins; with no entry for `x` the lookup is unchanged. -/
theorem mergeFragKeys_lookup (fields : List (String × Value)) (tbl : MergeTbl)
    (u n : Bool) (tbl2 : MergeTbl) (x : String)
    (h : mergeFragKeys tbl u n fields = .ok tbl2) :
    assocFind tbl2 x = lastOr (fragEntriesFor x fields) (assocFind tbl x) := by
  induction fields generalizing tbl u n with
  | nil =>
    simp only [mergeFragKeys] at h
    cases h
    rfl
  | cons kv rest ih =>
    obtain ⟨k, v⟩ := kv
    simp only [mergeFragKeys] at h
    by_cases hd : dollarKey k = true
    · rw [if_pos hd] at h
      by_cases hn : n = true
      · rw [if_pos hn] at h; cases h
      · rw [if_neg hn] at h
        by_cases hk : knownUpdateOp k = true
        · rw [if_pos hk] at h
          cases v with
          | obj ov =>
            have h2 := ih (tblInsertMany tbl k ov) true n h
            rw [h2, assocFind_tblInsertMany]
            simp [fragEntriesFor, hd, hk, lastOr_append]
          | null => cases h
          | str s => cases h
          | int m => cases h
          | bool b2 => cases h
          | arr es => cases h
        · rw [if_neg hk] at h
          by_cases hc : k = "$comment"
          · rw [if_pos hc] at h
            have h2 := ih tbl true n h
            rw [h2]
            simp [fragEntriesFor, hd, hk]
          · rw [if_neg hc] at h; cases h
    · rw [if_neg hd] at h
      by_cases hu : u = true
      · rw [if_pos hu] at h; cases h
      · rw [if_neg hu] at h
        have h2 := ih (tblInsert tbl k ⟨"$set", v⟩) u true h
        rw [h2, assocFind_tblInsert]
        by_cases hkx : k = x
        · subst hkx
          simp [fragEntriesFor, hd, lastOr_append, lastOr]
        · simp [fragEntriesFor, hd, hkx, lastOr_append]

/-- Lookup after processing a whole fragment list: the last entry for `x`
across all fragments wins. -/
theorem mergeTableList_lookup (q : List (Option Fragment)) (tbl tbl2 : MergeTbl) (x : String)
    (h : mergeTableList tbl q = .ok tbl2) :
    assocFind tbl2 x = lastOr (fragsEntriesFor x q) (assocFind tbl x) := by
  induction q generalizing tbl with
  | nil =>
    simp only [mergeTableList] at h
    cases h
    rfl
  | cons d rest ih =>
    cases d with
    | none =>
      simp only [mergeTableList, mergeOneFrag] at h
      exact ih tbl h
    | some fields =>
      simp only [mergeTableList, mergeOneFrag] at h
      cases hh : mergeFragKeys tbl false false fields with
      | error e => rw [hh] at h; cases h
      | ok t1 =>
        rw [hh] at h
        rw [ih t1 h, mergeFragKeys_lookup fields tbl false false t1 x hh,
          fragsEntriesFor, lastOr_append]

/-- Claim C6: the update merger is last-writer-wins per field regardless of
operator: in an ordered fragment list where fragments `a` and `b` (with `a`
before `b`) both carry an entry for field `x`, `b` carrying exactly the entry
`it` and no fragment after `b` mentioning `x`, the flat merge table assigns
`x` the operator and argument from `b`'s entry, and the merged document is the
grouping of that table by operator. -/
theorem c6_merge_last_writer_wins (pre post : List (Option Fragment))
    (a b : List (String × Value)) (x : String) (it : UpdateMergeItem) (tbl : MergeTbl)
    (hmem : (some a) ∈ pre) (hax : fragEntriesFor x a ≠ [])
    (hb : fragEntriesFor x b = [it])
    (hpost : ∀ fr : List (String × Value), (some fr) ∈ post → fragEntriesFor x fr = [])
    (hq : mergeTableList [] (pre ++ some b :: post) = .ok tbl) :
    assocFind tbl x = some it
    ∧ mergeUpdateList (pre ++ some b :: post) = .ok (some (assembleUpdate tbl)) := by
  constructor
  · have hl := mergeTableList_lookup (pre ++ some b :: post) [] tbl x hq
    have hpost2 : fragsEntriesFor x post = [] := by
      clear hq hl
      induction post with
      | nil => rfl
      | cons d rest ih =>
        cases d with
        | none =>
          simp only [fragsEntriesFor]
          exact ih (fun fr hfr => hpost fr (by simp [hfr]))
        | some fields =>
          simp only [fragsEntriesFor]
          rw [hpost fields (by simp), ih (fun fr hfr => hpost fr (by simp [hfr]))]
          rfl
    rw [fragsEntriesFor_append, fragsEntriesFor, hb, hpost2, lastOr_append] at hl
    simpa [lastOr] using hl
  · cases pre with
    | nil => cases hmem
    | cons p ps =>
      have hq2 : mergeTableList [] (p :: (ps ++ some b :: post)) = .ok tbl := by
        simpa using hq
      simp [mergeUpdateList, hq2]

/-- A bare-form fragment setting field `x` to 1. -/
def fragA : List (String × Value) := [("x", Value.int 1)]

/-- A dollar-form fragment incrementing field `x` by 2. -/
def fragB : List (String × Value) := [("$inc", Value.obj [("x", Value.int 2)])]

/-- The entry `fragB` carries for `x`. -/
def itB : UpdateMergeItem := ⟨"$inc", Value.int 2⟩

/-- The flat merge table of merging `fragA` then `fragB`. -/
def tblC6 : MergeTbl := [("x", itB)]

/-- Witness for C6: merging a bare `$set`-lifted write of `x` and then an
`$inc` of `x` keeps `$inc`'s entry, the later fragment winning. -/
theorem c6_witness :
    assocFind tblC6 "x" = some itB
    ∧ mergeUpdateList [some fragA, some fragB] = .ok (some (assembleUpdate tblC6)) :=
  c6_merge_last_writer_wins [some fragA] [] fragA fragB "x" itB tblC6
    (by simp)
    (by
      have h : fragEntriesFor "x" fragA = [⟨"$set", Value.int 1⟩] := rfl
      rw [h]; simp)
    rfl
    (by simp)
    rfl

/-! Machinery for compile-time rejection of mixed update fragments. -/

/-- Whether an `Except` result is a success. -/
def exceptIsOk {α : Type} : Except RErr α → Bool
  | .ok _ => true
  | .error _ => false

/-- A fragment mixing a dollar-operator key and a bare field key at top level. -/
def mixedFrag (fields : List (String × Value)) : Prop :=
  (∃ kv ∈ fields, dollarKey kv.1 = true) ∧ (∃ kv ∈ fields, dollarKey kv.1 = false)

/-- The key loop never succeeds once both kinds of keys are in play: either a
flag of one kind is already set or a key of that kind lies ahead, for both
kinds at once. -/
theorem mergeFragKeys_mixed_not_ok (fields : List (String × Value)) (tbl : MergeTbl)
    (u n : Bool) (hun : ¬(u = true ∧ n = true))
    (hdol : u = true ∨ ∃ kv ∈ fields, dollarKey kv.1 = true)
    (hbare : n = true ∨ ∃ kv ∈ fields, dollarKey kv.1 = false) :
    exceptIsOk (mergeFragKeys tbl u n fields) = false := by
  induction fields generalizing tbl u n with
  | nil =>
    rcases hdol with hu | ⟨kv, hmem, _⟩
    · rcases hbare with hn | ⟨kv, hmem, _⟩
      · exact absurd ⟨hu, hn⟩ hun
      · cases hmem
    · cases hmem
  | cons kv0 rest ih =>
    obtain ⟨k, v⟩ := kv0
    simp only [mergeFragKeys]
    by_cases hd : dollarKey k = true
    · rw [if_pos hd]
      by_cases hn : n = true
      · rw [if_pos hn]; rfl
      · rw [if_neg hn]
        have hbare2 : ∃ kv ∈ rest, dollarKey kv.1 = false := by
          rcases hbare with hn2 | ⟨kv2, hmem, hkv2⟩
          · exact absurd hn2 hn
          · rcases List.mem_cons.mp hmem with heq | hmem2
            · exact absurd hd (by rw [heq] at hkv2; simp only at hkv2; simp [hkv2])
            · exact ⟨kv2, hmem2, hkv2⟩
        by_cases hk : knownUpdateOp k = true
        · rw [if_pos hk]
          cases v with
          | obj ov =>
            exact ih (tblInsertMany tbl k ov) true n (by simp [hn]) (Or.inl rfl)
              (Or.inr hbare2)
          | null => rfl
          | str s => rfl
          | int m => rfl
          | bool b2 => rfl
          | arr es => rfl
        · rw [if_neg hk]
          by_cases hc : k = "$comment"
          · rw [if_pos hc]
            exact ih tbl true n (by simp [hn]) (Or.inl rfl) (Or.inr hbare2)
          · rw [if_neg hc]; rfl
    · rw [if_neg hd]
      by_cases hu : u = true
      · rw [if_pos hu]; rfl
      · rw [if_neg hu]
        have hdol2 : ∃ kv ∈ rest, dollarKey kv.1 = true := by
          rcases hdol with hu2 | ⟨kv2, hmem, hkv2⟩
          · exact absurd hu2 hu
          · rcases List.mem_cons.mp hmem with heq | hmem2
            · exact absurd (by rw [heq] at hkv2; exact hkv2) hd
            · exact ⟨kv2, hmem2, hkv2⟩
        exact ih (tblInsert tbl k ⟨"$set", v⟩) u true (by simp [hu]) (Or.inr hdol2)
          (Or.inl rfl)

/-- A mixed fragment anywhere in the list makes the table-building loop fail. -/
theorem mergeTableList_mixed_not_ok (q : List (Option Fragment)) (tbl : MergeTbl)
    (fr : List (String × Value)) (hmem : some fr ∈ q) (hmix : mixedFrag fr) :
    exceptIsOk (mergeTableList tbl q) = false := by
  induction q generalizing tbl with
  | nil => cases hmem
  | cons d rest ih =>
    simp only [mergeTableList]
    cases hh : mergeOneFrag tbl d with
    | error e => rfl
    | ok t1 =>
      rcases List.mem_cons.mp hmem with heq | hmem2
      · exfalso
        rw [← heq] at hh
        have hnot := mergeFragKeys_mixed_not_ok fr tbl false false (by simp)
          (Or.inr hmix.1) (Or.inr hmix.2)
        rw [show mergeFragKeys tbl false false fr = Except.ok t1 from hh] at hnot
        simp [exceptIsOk] at hnot
      · exact ih t1 hmem2

/-- A mixed fragment anywhere in the list makes `mergeUpdate` fail. -/
theorem mergeUpdateList_mixed_not_ok (q : List (Option Fragment))
    (fr : List (String × Value)) (hmem : some fr ∈ q) (hmix : mixedFrag fr) :
    exceptIsOk (mergeUpdateList q) = false := by
  cases q with
  | nil => cases hmem
  | cons d rest =>
    simp only [mergeUpdateList]
    cases hh : mergeTableList [] (d :: rest) with
    | error e => rfl
    | ok tbl =>
      exfalso
      have h2 := mergeTableList_mixed_not_ok (d :: rest) [] fr hmem hmix
      rw [hh] at h2
      simp [exceptIsOk] at h2

/-- A mixed fragment among the trial-merged fragments makes the trial fail. -/
theorem trialMergeAll_mixed_not_ok (frs : List (Option Fragment))
    (fr : List (String × Value)) (hmem : some fr ∈ frs) (hmix : mixedFrag fr) :
    exceptIsOk (trialMergeAll frs) = false := by
  induction frs with
  | nil => cases hmem
  | cons d rest ih =>
    simp only [trialMergeAll]
    cases hh : mergeUpdateList [d] with
    | error e => rfl
    | ok o =>
      rcases List.mem_cons.mp hmem with heq | hmem2
      · exfalso
        have h2 := mergeUpdateList_mixed_not_ok [d] fr (by rw [heq]; simp) hmix
        rw [hh] at h2
        simp [exceptIsOk] at h2
      · exact ih hmem2

/-- A mixed fragment in any category of the compiled update rules makes
`validateUpdateRules` fail. -/
theorem validateUpdateRules_mixed_not_ok (qr : QueryRules) (fr : List (String × Value))
    (hmix : mixedFrag fr)
    (hmem : some fr ∈ qr.userStateRules.map Prod.snd
      ∨ some fr ∈ qr.groupRules.map Prod.snd
      ∨ some fr ∈ qr.userRules.map Prod.snd
      ∨ qr.defaultRules = some fr) :
    exceptIsOk (validateUpdateRules (some qr)) = false := by
  simp only [validateUpdateRules]
  cases h1 : trialMergeAll (qr.userStateRules.map Prod.snd) with
  | error e => rfl
  | ok v1 =>
    cases h2 : trialMergeAll (qr.groupRules.map Prod.snd) with
    | error e => rfl
    | ok v2 =>
      cases h3 : trialMergeAll (qr.userRules.map Prod.snd) with
      | error e => rfl
      | ok v3 =>
        cases h4 : mergeUpdateList [qr.defaultRules] with
        | error e => rfl
        | ok v4 =>
          exfalso
          rcases hmem with hm | hm | hm | hm
          · have h5 := trialMergeAll_mixed_not_ok _ fr hm hmix
            rw [h1] at h5; simp [exceptIsOk] at h5
          · have h5 := trialMergeAll_mixed_not_ok _ fr hm hmix
            rw [h2] at h5; simp [exceptIsOk] at h5
          · have h5 := trialMergeAll_mixed_not_ok _ fr hm hmix
            rw [h3] at h5; simp [exceptIsOk] at h5
          · have h5 := mergeUpdateList_mixed_not_ok [qr.defaultRules] fr
              (by rw [hm]; simp) hmix
            rw [h4] at h5; simp [exceptIsOk] at h5

/-! Structural lemmas on the subject dispatch of the compiler. -/

/-- Lookup after a store at a different key is unchanged. -/
theorem assocFind_assocSet_ne {α : Type} (l : List (String × α)) (k key : String) (v : α)
    (h : k ≠ key) : assocFind (assocSet l k v) key = assocFind l key := by
  induction l with
  | nil => simp [assocSet, assocFind, h]
  | cons a rest ih =>
    obtain ⟨k1, v1⟩ := a
    simp only [assocSet]
    by_cases h1 : k1 = k
    · rw [if_pos h1]
      have hne : ¬ k1 = key := fun hc => h (h1.symm.trans hc)
      simp only [assocFind, if_neg hne]
    · rw [if_neg h1]
      by_cases h2 : k1 = key
      · simp only [assocFind, if_pos h2]
      · simp only [assocFind, if_neg h2]
        exact ih

/-- Lookup after a store at the same key yields the stored value. -/
theorem assocFind_assocSet_self {α : Type} (l : List (String × α)) (k : String) (v : α) :
    assocFind (assocSet l k v) k = some v := by
  induction l with
  | nil => simp [assocSet, assocFind]
  | cons a rest ih =>
    obtain ⟨k1, v1⟩ := a
    by_cases h1 : k1 = k <;> simp [assocSet, assocFind, h1, ih]

/-- A value found under a key is among the map's values. -/
theorem assocFind_mem_values {α : Type} (l : List (String × α)) (k : String) (v : α)
    (h : assocFind l k = some v) : v ∈ l.map Prod.snd := by
  induction l with
  | nil => cases h
  | cons a rest ih =>
    obtain ⟨k1, v1⟩ := a
    by_cases h1 : k1 = k
    · simp only [assocFind, if_pos h1] at h
      cases h
      simp
    · simp only [assocFind, if_neg h1] at h
      simp [ih h]

/-- A subject classified `default` is the literal string. -/
theorem classifySubject_deflt (s : String) (h : classifySubject s = SubjectKind.deflt) :
    s = "default" := by
  unfold classifySubject at h
  split at h
  · cases h
  · cases h
  · cases h
  · split at h
    · assumption
    · cases h

/-- A subject classified as group `nm` has the `g:` marker followed by `nm`. -/
theorem classifySubject_group (s nm : String) (h : classifySubject s = SubjectKind.group nm) :
    s.data = 'g' :: ':' :: nm.data := by
  unfold classifySubject at h
  split at h
  case _ nm0 heq =>
    injection h with h2
    rw [heq, ← h2]
  · cases h
  · cases h
  · split at h
    · cases h
    · cases h

/-- A subject classified as user `nm` has the `u:` marker followed by `nm`. -/
theorem classifySubject_user (s nm : String) (h : classifySubject s = SubjectKind.user nm) :
    s.data = 'u' :: ':' :: nm.data := by
  unfold classifySubject at h
  split at h
  · cases h
  case _ nm0 heq =>
    injection h with h2
    rw [heq, ← h2]
  · cases h
  · split at h
    · cases h
    · cases h

/-- Two subjects classified as the same group are the same string. -/
theorem classifySubject_group_inj (s1 s2 nm : String)
    (h1 : classifySubject s1 = SubjectKind.group nm)
    (h2 : classifySubject s2 = SubjectKind.group nm) : s1 = s2 := by
  have e1 := classifySubject_group s1 nm h1
  have e2 := classifySubject_group s2 nm h2
  have : s1.data = s2.data := e1.trans e2.symm
  calc s1 = String.mk s1.data := rfl
    _ = String.mk s2.data := by rw [this]
    _ = s2 := rfl

/-- Two subjects classified as the same user are the same string. -/
theorem classifySubject_user_inj (s1 s2 nm : String)
    (h1 : classifySubject s1 = SubjectKind.user nm)
    (h2 : classifySubject s2 = SubjectKind.user nm) : s1 = s2 := by
  have e1 := classifySubject_user s1 nm h1
  have e2 := classifySubject_user s2 nm h2
  have : s1.data = s2.data := e1.trans e2.symm
  calc s1 = String.mk s1.data := rfl
    _ = String.mk s2.data := by rw [this]
    _ = s2 := rfl

/-- With no `default` subject in the list, the default slot is unchanged. -/
theorem compileSubjects_default_stable (cfg : RulesConfig)
    (enf : List (String × Option Fragment)) (qr0 qr1 : QueryRules)
    (h : compileSubjects cfg qr0 enf = .ok qr1)
    (hnone : ∀ kv ∈ enf, classifySubject kv.1 ≠ SubjectKind.deflt) :
    qr1.defaultRules = qr0.defaultRules := by
  induction enf generalizing qr0 with
  | nil =>
    cases h
    rfl
  | cons kv rest ih =>
    obtain ⟨s1, o1⟩ := kv
    cases hcl : classifySubject s1 with
    | group nm =>
      simp only [compileSubjects, hcl] at h
      by_cases hnm : nm = ""
      · rw [if_pos hnm] at h; cases h
      · rw [if_neg hnm] at h
        by_cases hgr : (assocFind cfg.groups nm).isNone = true
        · rw [if_pos hgr] at h; cases h
        · rw [if_neg hgr] at h
          have hrec := ih _ h (fun kv2 hkv2 => hnone kv2 (by simp [hkv2]))
          exact hrec
    | user nm =>
      simp only [compileSubjects, hcl] at h
      by_cases hnm : nm = ""
      · rw [if_pos hnm] at h; cases h
      · rw [if_neg hnm] at h
        have hrec := ih _ h (fun kv2 hkv2 => hnone kv2 (by simp [hkv2]))
        exact hrec
    | state nm =>
      simp only [compileSubjects, hcl] at h
      by_cases hst : knownState (toLowerStr nm) = true
      · rw [if_pos hst] at h
        have hrec := ih _ h (fun kv2 hkv2 => hnone kv2 (by simp [hkv2]))
        exact hrec
      · rw [if_neg hst] at h; cases h
    | deflt => exact absurd hcl (hnone (s1, o1) (by simp))
    | invalid =>
      simp only [compileSubjects, hcl] at h
      cases h

/-- With no subject targeting group `nm` in the list, the lookup of `nm` in
the group slot is unchanged. -/
theorem compileSubjects_group_stable (cfg : RulesConfig)
    (enf : List (String × Option Fragment)) (qr0 qr1 : QueryRules) (nm : String)
    (h : compileSubjects cfg qr0 enf = .ok qr1)
    (hnone : ∀ kv ∈ enf, classifySubject kv.1 ≠ SubjectKind.group nm) :
    assocFind qr1.groupRules nm = assocFind qr0.groupRules nm := by
  induction enf generalizing qr0 with
  | nil =>
    cases h
    rfl
  | cons kv rest ih =>
    obtain ⟨s1, o1⟩ := kv
    cases hcl : classifySubject s1 with
    | group nm2 =>
      simp only [compileSubjects, hcl] at h
      by_cases hnm : nm2 = ""
      · rw [if_pos hnm] at h; cases h
      · rw [if_neg hnm] at h
        by_cases hgr : (assocFind cfg.groups nm2).isNone = true
        · rw [if_pos hgr] at h; cases h
        · rw [if_neg hgr] at h
          have hne : nm2 ≠ nm := by
            intro hcontra
            exact hnone (s1, o1) (by simp) (by rw [hcl, hcontra])
          have hrec := ih _ h (fun kv2 hkv2 => hnone kv2 (by simp [hkv2]))
          rw [hrec]
          exact assocFind_assocSet_ne qr0.groupRules nm2 nm o1 hne
    | user nm2 =>
      simp only [compileSubjects, hcl] at h
      by_cases hnm : nm2 = ""
      · rw [if_pos hnm] at h; cases h
      · rw [if_neg hnm] at h
        have hrec := ih _ h (fun kv2 hkv2 => hnone kv2 (by simp [hkv2]))
        exact hrec
    | state nm2 =>
      simp only [compileSubjects, hcl] at h
      by_cases hst : knownState (toLowerStr nm2) = true
      · rw [if_pos hst] at h
        have hrec := ih _ h (fun kv2 hkv2 => hnone kv2 (by simp [hkv2]))
        exact hrec
      · rw [if_neg hst] at h; cases h
    | deflt =>
      simp only [compileSubjects, hcl] at h
      have hrec := ih _ h (fun kv2 hkv2 => hnone kv2 (by simp [hkv2]))
      exact hrec
    | invalid =>
      simp only [compileSubjects, hcl] at h
      cases h

/-- With no subject targeting user `nm` in the list, the lookup of `nm` in the
user slot is unchanged. -/
theorem compileSubjects_user_stable (cfg : RulesConfig)
    (enf : List (String × Option Fragment)) (qr0 qr1 : QueryRules) (nm : String)
    (h : compileSubjects cfg qr0 enf = .ok qr1)
    (hnone : ∀ kv ∈ enf, classifySubject kv.1 ≠ SubjectKind.user nm) :
    assocFind qr1.userRules nm = assocFind qr0.userRules nm := by
  induction enf generalizing qr0 with
  | nil =>
    cases h
    rfl
  | cons kv rest ih =>
    obtain ⟨s1, o1⟩ := kv
    cases hcl : classifySubject s1 with
    | group nm2 =>
      simp only [compileSubjects, hcl] at h
      by_cases hnm : nm2 = ""
      · rw [if_pos hnm] at h; cases h
      · rw [if_neg hnm] at h
        by_cases hgr : (assocFind cfg.groups nm2).isNone = true
        · rw [if_pos hgr] at h; cases h
        · rw [if_neg hgr] at h
          have hrec := ih _ h (fun kv2 hkv2 => hnone kv2 (by simp [hkv2]))
          exact hrec
    | user nm2 =>
      simp only [compileSubjects, hcl] at h
      by_cases hnm : nm2 = ""
      · rw [if_pos hnm] at h; cases h
      · rw [if_neg hnm] at h
        have hne : nm2 ≠ nm := by
          intro hcontra
          exact hnone (s1, o1) (by simp) (by rw [hcl, hcontra])
        have hrec := ih _ h (fun kv2 hkv2 => hnone kv2 (by simp [hkv2]))
        rw [hrec]
        exact assocFind_assocSet_ne qr0.userRules nm2 nm o1 hne
    | state nm2 =>
      simp only [compileSubjects, hcl] at h
      by_cases hst : knownState (toLowerStr nm2) = true
      · rw [if_pos hst] at h
        have hrec := ih _ h (fun kv2 hkv2 => hnone kv2 (by simp [hkv2]))
        exact hrec
      · rw [if_neg hst] at h; cases h
    | deflt =>
      simp only [compileSubjects, hcl] at h
      have hrec := ih _ h (fun kv2 hkv2 => hnone kv2 (by simp [hkv2]))
      exact hrec
    | invalid =>
      simp only [compileSubjects, hcl] at h
      cases h

/-- A successful subject pass over an append splits into successful passes
over the two parts. -/
theorem compileSubjects_append (cfg : RulesConfig)
    (l1 l2 : List (String × Option Fragment)) (qr0 qr1 : QueryRules)
    (h : compileSubjects cfg qr0 (l1 ++ l2) = .ok qr1) :
    ∃ qrm, compileSubjects cfg qr0 l1 = .ok qrm ∧ compileSubjects cfg qrm l2 = .ok qr1 := by
  induction l1 generalizing qr0 with
  | nil => exact ⟨qr0, rfl, h⟩
  | cons kv rest ih =>
    obtain ⟨s1, o1⟩ := kv
    rw [List.cons_append] at h
    cases hcl : classifySubject s1 with
    | group nm =>
      simp only [compileSubjects, hcl] at h ⊢
      by_cases hnm : nm = ""
      · rw [if_pos hnm] at h; cases h
      · rw [if_neg hnm] at h ⊢
        by_cases hgr : (assocFind cfg.groups nm).isNone = true
        · rw [if_pos hgr] at h; cases h
        · rw [if_neg hgr] at h ⊢
          exact ih _ h
    | user nm =>
      simp only [compileSubjects, hcl] at h ⊢
      by_cases hnm : nm = ""
      · rw [if_pos hnm] at h; cases h
      · rw [if_neg hnm] at h ⊢
        exact ih _ h
    | state nm =>
      simp only [compileSubjects, hcl] at h ⊢
      by_cases hst : knownState (toLowerStr nm) = true
      · rw [if_pos hst] at h ⊢
        exact ih _ h
      · rw [if_neg hst] at h; cases h
    | deflt =>
      simp only [compileSubjects, hcl] at h ⊢
      exact ih _ h
    | invalid =>
      simp only [compileSubjects, hcl] at h
      cases h

/-- With no subject denoting state `st` (after case folding) in the list, the
lookup of `st` in the state slot is unchanged. -/
theorem compileSubjects_state_stable (cfg : RulesConfig)
    (enf : List (String × Option Fragment)) (qr0 qr1 : QueryRules) (st : String)
    (h : compileSubjects cfg qr0 enf = .ok qr1)
    (hnone : ∀ kv ∈ enf, ∀ nm2, classifySubject kv.1 = SubjectKind.state nm2 →
        toLowerStr nm2 ≠ st) :
    assocFind qr1.userStateRules st = assocFind qr0.userStateRules st := by
  induction enf generalizing qr0 with
  | nil =>
    cases h
    rfl
  | cons kv rest ih =>
    obtain ⟨s1, o1⟩ := kv
    cases hcl : classifySubject s1 with
    | group nm2 =>
      simp only [compileSubjects, hcl] at h
      by_cases hnm : nm2 = ""
      · rw [if_pos hnm] at h; cases h
      · rw [if_neg hnm] at h
        by_cases hgr : (assocFind cfg.groups nm2).isNone = true
        · rw [if_pos hgr] at h; cases h
        · rw [if_neg hgr] at h
          have hrec := ih _ h (fun kv2 hkv2 nm3 hcl3 => hnone kv2 (by simp [hkv2]) nm3 hcl3)
          exact hrec
    | user nm2 =>
      simp only [compileSubjects, hcl] at h
      by_cases hnm : nm2 = ""
      · rw [if_pos hnm] at h; cases h
      · rw [if_neg hnm] at h
        have hrec := ih _ h (fun kv2 hkv2 nm3 hcl3 => hnone kv2 (by simp [hkv2]) nm3 hcl3)
        exact hrec
    | state nm2 =>
      simp only [compileSubjects, hcl] at h
      by_cases hst : knownState (toLowerStr nm2) = true
      · rw [if_pos hst] at h
        have hne : toLowerStr nm2 ≠ st := hnone (s1, o1) (by simp) nm2 hcl
        have hrec := ih _ h (fun kv2 hkv2 nm3 hcl3 => hnone kv2 (by simp [hkv2]) nm3 hcl3)
        rw [hrec]
        exact assocFind_assocSet_ne qr0.userStateRules (toLowerStr nm2) st o1 hne
      · rw [if_neg hst] at h; cases h
    | deflt =>
      simp only [compileSubjects, hcl] at h
      have hrec := ih _ h (fun kv2 hkv2 nm3 hcl3 => hnone kv2 (by simp [hkv2]) nm3 hcl3)
      exact hrec
    | invalid =>
      simp only [compileSubjects, hcl] at h
      cases h

/-- A fragment bound to a `default`, `g:`, `u:`, or unshadowed `s:` subject,
with the subject keys pairwise distinct, survives subject compilation into the
compiled QueryRules. -/
theorem compileSubjects_keeps_fragment (cfg : RulesConfig)
    (enf : List (String × Option Fragment)) (qr0 qr1 : QueryRules)
    (s : String) (fr : List (String × Value))
    (h : compileSubjects cfg qr0 enf = .ok qr1)
    (hs : (s, some fr) ∈ enf)
    (hnodup : (enf.map Prod.fst).Nodup)
    (hsubj : classifySubject s = SubjectKind.deflt
      ∨ (∃ nm, classifySubject s = SubjectKind.group nm)
      ∨ (∃ nm, classifySubject s = SubjectKind.user nm)
      ∨ (∃ nm, classifySubject s = SubjectKind.state nm
          ∧ ∀ kv ∈ enf, ∀ nm2, classifySubject kv.1 = SubjectKind.state nm2 →
              kv.1 ≠ s → toLowerStr nm2 ≠ toLowerStr nm)) :
    some fr ∈ qr1.userStateRules.map Prod.snd
      ∨ some fr ∈ qr1.groupRules.map Prod.snd
      ∨ some fr ∈ qr1.userRules.map Prod.snd
      ∨ qr1.defaultRules = some fr := by
  obtain ⟨l1, l2, hsplit⟩ := List.append_of_mem hs
  subst hsplit
  have hkey : ∀ kv ∈ l2, kv.1 ≠ s := by
    intro kv hkv heq
    rw [List.map_append, List.map_cons] at hnodup
    have h2 := hnodup.of_append_right
    exact (List.nodup_cons.mp h2).1 (List.mem_map.mpr ⟨kv, hkv, heq⟩)
  obtain ⟨qrm, hm1, hm2⟩ := compileSubjects_append cfg l1 ((s, some fr) :: l2) qr0 qr1 h
  rcases hsubj with hdf | ⟨nm, hg⟩ | ⟨nm, hu2⟩ | ⟨nm, hstcl, hshadow⟩
  · simp only [compileSubjects, hdf] at hm2
    have hst := compileSubjects_default_stable cfg l2 _ qr1 hm2
      (fun kv hkv hcl =>
        hkey kv hkv ((classifySubject_deflt kv.1 hcl).trans (classifySubject_deflt s hdf).symm))
    right; right; right
    rw [hst]
  · simp only [compileSubjects, hg] at hm2
    by_cases hnm : nm = ""
    · rw [if_pos hnm] at hm2; cases hm2
    · rw [if_neg hnm] at hm2
      by_cases hgr : (assocFind cfg.groups nm).isNone = true
      · rw [if_pos hgr] at hm2; cases hm2
      · rw [if_neg hgr] at hm2
        have hst := compileSubjects_group_stable cfg l2 _ qr1 nm hm2
          (fun kv hkv hcl => hkey kv hkv (classifySubject_group_inj kv.1 s nm hcl hg))
        right; left
        exact assocFind_mem_values qr1.groupRules nm (some fr)
          (by rw [hst]; exact assocFind_assocSet_self qrm.groupRules nm (some fr))
  · simp only [compileSubjects, hu2] at hm2
    by_cases hnm : nm = ""
    · rw [if_pos hnm] at hm2; cases hm2
    · rw [if_neg hnm] at hm2
      have hst := compileSubjects_user_stable cfg l2 _ qr1 nm hm2
        (fun kv hkv hcl => hkey kv hkv (classifySubject_user_inj kv.1 s nm hcl hu2))
      right; right; left
      exact assocFind_mem_values qr1.userRules nm (some fr)
        (by rw [hst]; exact assocFind_assocSet_self qrm.userRules nm (some fr))
  · simp only [compileSubjects, hstcl] at hm2
    by_cases hks : knownState (toLowerStr nm) = true
    · rw [if_pos hks] at hm2
      have hst := compileSubjects_state_stable cfg l2 _ qr1 (toLowerStr nm) hm2
        (fun kv hkv nm2 hcl2 =>
          hshadow kv (by simp [hkv]) nm2 hcl2 (hkey kv hkv))
      left
      exact assocFind_mem_values qr1.userStateRules (toLowerStr nm) (some fr)
        (by rw [hst]; exact assocFind_assocSet_self qrm.userStateRules (toLowerStr nm) (some fr))
    · rw [if_neg hks] at hm2; cases hm2

/-- A mixed update-update fragment in any listed table makes the per-table
compilation pass fail. -/
theorem compileTables_mixed_not_ok (cfg : RulesConfig)
    (tbls : List (String × TableEnforces)) (t : String) (te : TableEnforces)
    (enf : List (String × Option Fragment)) (s : String) (fr : List (String × Value))
    (hmem : (t, te) ∈ tbls) (henf : te.updateUpdate = some enf)
    (hs : (s, some fr) ∈ enf) (hnodup : (enf.map Prod.fst).Nodup)
    (hsubj : classifySubject s = SubjectKind.deflt
      ∨ (∃ nm, classifySubject s = SubjectKind.group nm)
      ∨ (∃ nm, classifySubject s = SubjectKind.user nm)
      ∨ (∃ nm, classifySubject s = SubjectKind.state nm
          ∧ ∀ kv ∈ enf, ∀ nm2, classifySubject kv.1 = SubjectKind.state nm2 →
              kv.1 ≠ s → toLowerStr nm2 ≠ toLowerStr nm))
    (hmix : mixedFrag fr) :
    exceptIsOk (compileTables cfg tbls) = false := by
  induction tbls with
  | nil => cases hmem
  | cons tv rest ih =>
    obtain ⟨t1, te1⟩ := tv
    cases h1 : compileQueryEnforces cfg te1.find with
    | error e => simp [compileTables, h1, exceptIsOk]
    | ok fnd =>
    cases h2 : compileQueryEnforces cfg te1.count with
    | error e => simp [compileTables, h1, h2, exceptIsOk]
    | ok cnt =>
    cases h3 : compileQueryEnforces cfg te1.remove with
    | error e => simp [compileTables, h1, h2, h3, exceptIsOk]
    | ok rmv =>
    cases h4 : compileQueryEnforces cfg te1.insert with
    | error e => simp [compileTables, h1, h2, h3, h4, exceptIsOk]
    | ok ins =>
    cases h5 : compileQueryEnforces cfg te1.updateFilter with
    | error e => simp [compileTables, h1, h2, h3, h4, h5, exceptIsOk]
    | ok updF =>
    cases h6 : compileQueryEnforces cfg te1.updateUpdate with
    | error e => simp [compileTables, h1, h2, h3, h4, h5, h6, exceptIsOk]
    | ok updU =>
    cases h7 : validateUpdateRules (some updU) with
    | error e => simp [compileTables, h1, h2, h3, h4, h5, h6, h7, exceptIsOk]
    | ok v7 =>
      rcases List.mem_cons.mp hmem with heq | hmem2
      · exfalso
        have hte : te1 = te := by
          have h9 := congrArg Prod.snd heq
          simpa using h9.symm
        subst hte
        rw [henf] at h6
        have hkeeps := compileSubjects_keeps_fragment cfg enf qrInit updU s fr h6 hs
          hnodup hsubj
        have hval := validateUpdateRules_mixed_not_ok updU fr hmix hkeeps
        rw [h7] at hval
        simp [exceptIsOk] at hval
      · cases h8 : compileTables cfg rest with
        | error e => simp [compileTables, h1, h2, h3, h4, h5, h6, h7, h8, exceptIsOk]
        | ok rest2 =>
          exfalso
          have hrec := ih hmem2
          rw [h8] at hrec
          simp [exceptIsOk] at hrec

/-- Claim C7 (amended): compilation fails when any update-rule fragment of any
table mixes bare field keys with dollar-operator keys at its top level,
provided the fragment's subject key is not shadowed by another state subject
key denoting the same case-folded state (subject keys are pairwise distinct,
as in any decoded JSON object): the trial merge performed by
`validateUpdateRules` at compile time rejects the mixed fragment, so
`CompileRawRules` returns an error. -/
theorem c7_mixed_fragment_fails_compile (cfg : RulesConfig) (t : String)
    (te : TableEnforces) (enf : List (String × Option Fragment)) (s : String)
    (fr : List (String × Value))
    (hmem : (t, te) ∈ cfg.rules) (henf : te.updateUpdate = some enf)
    (hs : (s, some fr) ∈ enf) (hnodup : (enf.map Prod.fst).Nodup)
    (hsubj : classifySubject s = SubjectKind.deflt
      ∨ (∃ nm, classifySubject s = SubjectKind.group nm)
      ∨ (∃ nm, classifySubject s = SubjectKind.user nm)
      ∨ (∃ nm, classifySubject s = SubjectKind.state nm
          ∧ ∀ kv ∈ enf, ∀ nm2, classifySubject kv.1 = SubjectKind.state nm2 →
              kv.1 ≠ s → toLowerStr nm2 ≠ toLowerStr nm))
    (hmix : mixedFrag fr) :
    exceptIsOk (CompileRawRules (some cfg)) = false := by
  simp only [CompileRawRules]
  by_cases hv : validateStruct cfg = true
  · rw [if_pos hv]
    cases hct : compileTables cfg cfg.rules with
    | error e => rfl
    | ok tbls =>
      exfalso
      have hbad := compileTables_mixed_not_ok cfg cfg.rules t te enf s fr hmem henf hs
        hnodup hsubj hmix
      rw [hct] at hbad
      simp [exceptIsOk] at hbad
  · rw [if_neg hv]
    rfl

/-- The configuration of scenario S5: update-update rules whose `default`
fragment mixes a `$set` operator with a bare field. -/
def cfgC7 : RulesConfig :=
  { groups := [],
    rules := [("t1",
      { teEmpty with updateUpdate := some [("default",
          some [("$set", Value.obj [("x", Value.int 1)]), ("y", Value.int 2)])] })] }

/-- Witness for C7: compiling the S5 configuration fails (concretely with the
mixed-fragment merge error), by the claim's theorem applied at the S5 input. -/
theorem c7_witness :
    exceptIsOk (CompileRawRules (some cfgC7)) = false
    ∧ CompileRawRules (some cfgC7) = .error RErr.mergeMixed :=
  ⟨c7_mixed_fragment_fails_compile cfgC7 "t1"
      { teEmpty with updateUpdate := some [("default",
          some [("$set", Value.obj [("x", Value.int 1)]), ("y", Value.int 2)])] }
      [("default", some [("$set", Value.obj [("x", Value.int 1)]), ("y", Value.int 2)])]
      "default" [("$set", Value.obj [("x", Value.int 1)]), ("y", Value.int 2)]
      (by simp [cfgC7])
      rfl
      (by simp)
      (by simp)
      (Or.inl rfl)
      ⟨⟨("$set", Value.obj [("x", Value.int 1)]), by simp, rfl⟩,
       ⟨("y", Value.int 2), by simp, rfl⟩⟩,
    rfl⟩

/-- The mixed fragment used in the C7 counterexample. -/
def mixedFrC7 : Fragment := [("$set", Value.obj [("x", Value.int 1)]), ("y", Value.int 2)]

/-- A configuration whose update-update rules carry the mixed fragment under
`s:ANONYMOUS`, shadowed by a later clean `s:anonymous` entry denoting the same
case-folded state. -/
def cfgC7Shadow : RulesConfig :=
  { groups := [],
    rules := [("t1", { teEmpty with updateUpdate := some (
      [("s:ANONYMOUS", some mixedFrC7), ("s:anonymous", some [("x", Value.int 1)])]) })] }

/-- Counterexample for C7 as literally stated: this configuration contains an
update-rule fragment mixing a dollar operator with a bare field, yet (for this
iteration order of the Go subject map) compilation succeeds, because the later
`s:anonymous` entry overwrites the compiled slot of `s:ANONYMOUS` before the
trial merge runs. -/
theorem c7_counterexample :
    ("s:ANONYMOUS", some mixedFrC7)
        ∈ [("s:ANONYMOUS", some mixedFrC7), ("s:anonymous", some [("x", Value.int 1)])]
    ∧ (cfgC7Shadow.rules.map (fun tv => tv.2.updateUpdate))
        = [some [("s:ANONYMOUS", some mixedFrC7), ("s:anonymous", some [("x", Value.int 1)])]]
    ∧ mixedFrag mixedFrC7
    ∧ exceptIsOk (CompileRawRules (some cfgC7Shadow)) = true :=
  ⟨by simp, rfl,
   ⟨⟨("$set", Value.obj [("x", Value.int 1)]), by simp [mixedFrC7], rfl⟩,
    ⟨("y", Value.int 2), by simp [mixedFrC7], rfl⟩⟩,
   by decide⟩

/-! Machinery for the bare-form update lifting. -/

/-- With every group absent from the group rules, the group loop returns the
empty list. -/
theorem collectGroupRules_absent (qr : QueryRules) (gs : List String)
    (h : ∀ g ∈ gs, assocFind qr.groupRules g = none) :
    collectGroupRules qr gs = .ok [] := by
  induction gs with
  | nil => rfl
  | cons a as ih =>
    simp [collectGroupRules, h a (by simp), ih (fun g hg => h g (by simp [hg]))]

/-- Storing a fresh key appends the entry at the end of the table. -/
theorem tblInsert_fresh (tbl : MergeTbl) (k : String) (it : UpdateMergeItem)
    (h : assocFind tbl k = none) : tblInsert tbl k it = tbl ++ [(k, it)] := by
  induction tbl with
  | nil => rfl
  | cons a rest ih =>
    obtain ⟨k1, v1⟩ := a
    simp only [assocFind] at h
    by_cases h1 : k1 = k
    · rw [if_pos h1] at h; cases h
    · rw [if_neg h1] at h
      simp [tblInsert, h1, ih h]

/-- Lookup over an append tries the left part first. -/
theorem assocFind_append {α : Type} (l1 l2 : List (String × α)) (k : String) :
    assocFind (l1 ++ l2) k
      = match assocFind l1 k with
        | some v => some v
        | none => assocFind l2 k := by
  induction l1 with
  | nil => rfl
  | cons a rest ih =>
    obtain ⟨k1, v1⟩ := a
    by_cases h1 : k1 = k <;> simp [assocFind, h1, ih]

/-- The merge table a bare-form fragment produces: every field under `$set`. -/
def tblOfBare (d : List (String × Value)) : MergeTbl :=
  d.map (fun kv => (kv.1, ⟨"$set", kv.2⟩))

/-- Processing a bare-form fragment with pairwise-distinct keys, all fresh for
the table, appends its `$set`-lifted entries. -/
theorem mergeFragKeys_bare (d : List (String × Value)) (tbl : MergeTbl) (n : Bool)
    (hbare : ∀ kv ∈ d, dollarKey kv.1 = false)
    (hfresh : ∀ kv ∈ d, assocFind tbl kv.1 = none)
    (hnodup : (d.map Prod.fst).Nodup) :
    mergeFragKeys tbl false n d = .ok (tbl ++ tblOfBare d) := by
  induction d generalizing tbl n with
  | nil => simp [mergeFragKeys, tblOfBare]
  | cons kv rest ih =>
    obtain ⟨k, v⟩ := kv
    have hd : dollarKey k = false := hbare (k, v) (by simp)
    simp only [mergeFragKeys]
    rw [if_neg (by simp [hd]), if_neg (by simp)]
    rw [tblInsert_fresh tbl k ⟨"$set", v⟩ (hfresh (k, v) (by simp))]
    have hknotr : k ∉ rest.map Prod.fst := by
      rw [List.map_cons] at hnodup
      exact (List.nodup_cons.mp hnodup).1
    have hfresh2 : ∀ kv2 ∈ rest, assocFind (tbl ++ [(k, (⟨"$set", v⟩ : UpdateMergeItem))]) kv2.1 = none := by
      intro kv2 hkv2
      rw [assocFind_append, hfresh kv2 (by simp [hkv2])]
      have hne : ¬(k = kv2.1) := fun hc => hknotr (hc ▸ List.mem_map_of_mem Prod.fst hkv2)
      simp [assocFind, hne]
    have hrest := ih (tbl ++ [(k, ⟨"$set", v⟩)]) true
      (fun kv2 hkv2 => hbare kv2 (by simp [hkv2]))
      hfresh2
      ((List.nodup_cons.mp (by rw [List.map_cons] at hnodup; exact hnodup)).2)
    rw [hrest]
    simp [tblOfBare]

/-- Grouping a table whose every entry carries `$set` extends the single
`$set` object. -/
theorem assembleFold_all_set (tbl : MergeTbl) (acc : List (String × Value))
    (h : ∀ e ∈ tbl, e.2.op = "$set") :
    assembleFold [("$set", Value.obj acc)] tbl
      = [("$set", Value.obj (acc ++ tbl.map (fun e => (e.1, e.2.argument))))] := by
  induction tbl generalizing acc with
  | nil => simp [assembleFold]
  | cons e rest ih =>
    obtain ⟨f, it⟩ := e
    have hop : it.op = "$set" := h (f, it) (by simp)
    simp only [assembleFold, addToOp, hop, eq_self_iff_true, if_true]
    rw [ih (acc ++ [(f, it.argument)]) (fun e2 he2 => h e2 (by simp [he2]))]
    simp

/-- Grouping the `$set`-lifted table of a non-empty bare fragment yields the
single-operator document carrying the fragment itself. -/
theorem assembleUpdate_tblOfBare (k : String) (v : Value) (rest : List (String × Value)) :
    assembleUpdate (tblOfBare ((k, v) :: rest)) = [("$set", Value.obj ((k, v) :: rest))] := by
  simp only [assembleUpdate, tblOfBare, List.map_cons, assembleFold, addToOp]
  rw [assembleFold_all_set (rest.map (fun kv => (kv.1, (⟨"$set", kv.2⟩ : UpdateMergeItem)))) [(k, v)]
    (by intro e2 he2; simp only [List.mem_map] at he2; obtain ⟨kv2, _, hkv2⟩ := he2
        rw [← hkv2])]
  simp only [List.map_map]
  have hmap : ∀ l : List (String × Value),
      List.map ((fun e : String × UpdateMergeItem => (e.1, e.2.argument))
        ∘ fun kv : String × Value => (kv.1, ⟨"$set", kv.2⟩)) l = l := by
    intro l
    induction l with
    | nil => rfl
    | cons a l2 ih => simp [ih]
  rw [hmap]
  simp

/-- Claim C10: `EnforceRulesOnUpdate` passes the caller's document through the
merger even when no rule fragment applies: with compiled update rules on the
table and a principal matching no subject, a non-empty bare-form caller
document `d` is returned lifted to dollar form as a `$set` of `d`, not as `d`
itself. -/
theorem c10_update_lifts_caller (r : Rules) (tableRules : TableRules) (qr : QueryRules)
    (d : List (String × Value)) (table uid userState : String)
    (vars : List (String × Value))
    (hTable : assocFind r.rules table = some (some tableRules))
    (hUpd : tableRules.updateRules = some qr)
    (hState : assocFind qr.userStateRules userState = none)
    (hGroups : ∀ g ∈ userGroupsOf r uid, assocFind qr.groupRules g = none)
    (hUser : assocFind qr.userRules uid = none)
    (hBare : ∀ kv ∈ d, dollarKey kv.1 = false)
    (hKeys : (d.map Prod.fst).Nodup)
    (hne : d ≠ []) :
    EnforceRulesOnUpdate r d table uid userState vars = .ok [("$set", Value.obj d)]
    ∧ [("$set", Value.obj d)] ≠ d := by
  obtain ⟨k0, v0, rest, rfl⟩ : ∃ k0 v0 rest, d = (k0, v0) :: rest := by
    cases d with
    | nil => exact absurd rfl hne
    | cons a l => exact ⟨a.1, a.2, l, by simp⟩
  constructor
  · have hfind : findRulesToApply r tableRules.updateRules uid userState
        = .ok [none, none] := by
      rw [hUpd]
      simp [findRulesToApply, stateRuleStep, userRuleStep, hState, hUser,
        collectGroupRules_absent qr (userGroupsOf r uid) hGroups]
    have hmrg : mergeFragKeys [] false false ((k0, v0) :: rest)
        = .ok (tblOfBare ((k0, v0) :: rest)) := by
      have hb := mergeFragKeys_bare ((k0, v0) :: rest) [] false hBare
        (fun kv _ => rfl) hKeys
      simpa using hb
    simp only [EnforceRulesOnUpdate, hTable, hUpd, hfind]
    rw [show findRulesToApply r (some qr) uid userState = .ok [none, none] from
      hUpd ▸ hfind]
    simp only [mergeUpdateList, mergeTableList, mergeOneFrag, injectFragment, injectFields]
    rw [hmrg]
    simp only [mergeFragKeys, assembleUpdate_tblOfBare k0 v0 rest]
    rfl
  · intro hcontra
    have hk0 : k0 = "$set" := by
      have h1 := congrArg List.head? hcontra
      simp only [List.head?] at h1
      have h2 := congrArg (fun o => o.map Prod.fst) h1
      simpa using h2.symm
    have h0 : dollarKey k0 = false := hBare (k0, v0) (by simp)
    rw [hk0] at h0
    rw [show dollarKey "$set" = true from rfl] at h0
    cases h0

/-- Witness for C8: at the scenario-S1 input the rewritten filter is the
single-key conjunction ending with the caller's filter. -/
theorem c8_witness :
    ([("$and", Value.arr [Value.null, Value.null, Value.obj [("name", Value.str "x")]])]
      : Fragment) = [("name", Value.str "x")]
    ∨ ∃ l : List Value,
      ([("$and", Value.arr [Value.null, Value.null, Value.obj [("name", Value.str "x")]])]
        : Fragment)
      = [("$and", Value.arr (l ++ [Value.obj [("name", Value.str "x")]]))] :=
  c8_filter_appended_last (rulesOf cfgS1) [("name", Value.str "x")] "table1" "u1"
    "logged_in" [] RuleQueryType.find
    [("$and", Value.arr [Value.null, Value.null, Value.obj [("name", Value.str "x")]])] rfl

/-- A configuration with a single table and all enforcement sections absent. -/
def cfg10 : RulesConfig := { groups := [], rules := [("t1", teEmpty)] }

/-- The compiled Rules object of `cfg10`. -/
def r10 : Rules := rulesOf cfg10

/-- The compiled TableRules of the table `t1` of `cfg10`. -/
def tr10 : TableRules :=
  { rules := [(RuleQueryType.find, some qrInit), (RuleQueryType.count, some qrInit),
              (RuleQueryType.remove, some qrInit), (RuleQueryType.insert, some qrInit),
              (RuleQueryType.update, some qrInit)],
    updateRules := some qrInit }

/-- Witness for C10: on a table with compiled (empty) update rules and a
principal matching no subject, the bare caller update `a = 1` comes back as
`$set` of `a = 1`, not as itself. -/
theorem c10_witness :
    EnforceRulesOnUpdate r10 [("a", Value.int 1)] "t1" "u1" "logged_in" []
      = .ok [("$set", Value.obj [("a", Value.int 1)])]
    ∧ [("$set", Value.obj [("a", Value.int 1)])] ≠ [("a", Value.int 1)] :=
  c10_update_lifts_caller r10 tr10 qrInit [("a", Value.int 1)] "t1" "u1" "logged_in" []
    rfl rfl rfl
    (by intro g hg
        rw [show userGroupsOf r10 "u1" = [] from rfl] at hg
        cases hg)
    rfl
    (by intro kv hkv
        rw [show kv ∈ [(("a" : String), Value.int 1)] ↔ kv = ("a", Value.int 1)
          from List.mem_singleton] at hkv
        rw [hkv]
        rfl)
    (by simp)
    (by simp)
